import Mathlib

/-!
Verification of the AugmentPlotfile numeric kernels declared in
`Tools/C_util/AugmentPlotfile/AugmentPlotfile_F.H`: the finite-difference
vorticity kernel `vort_3d`, the divergence kernel `divu_3d`, and the
structured sub-box copy kernel `copy_3d`.

The repository slice contains only the C-linkage declarations of the three
kernels; their bodies live outside the slice.  Following the design
specification, each kernel is modelled here as a pure transformation on a
dense multi-component field array addressed by `(component, i, j, k)`,
with exact rationals standing in for the `amrex_real` floating-point
values (the specification states its numeric properties exactly, within
floating-point tolerance).  Each kernel validates its preconditions and
fails fast with `none` before touching any array data, as the
specification prescribes for a reimplementation.
-/

/-- An integer index vector in 3 dimensions, used both for cell
coordinates and for the `lo`/`hi` corners of an inclusive index box. -/
structure IVec3 where
  x : Int
  y : Int
  z : Int
deriving DecidableEq

/-- The 3-vector of grid spacings (`delta`), modelled with exact
rationals. -/
structure QVec3 where
  x : ℚ
  y : ℚ
  z : ℚ
deriving DecidableEq

/-- A dense multi-component field array addressed by component index and
cell coordinate, the model of the `amrex_real* d` storage together with
its addressing convention. -/
abbrev FArr := Int → IVec3 → ℚ

/-- Cell neighbour in the positive x direction. -/
def xp (p : IVec3) : IVec3 := ⟨p.x + 1, p.y, p.z⟩

/-- Cell neighbour in the negative x direction. -/
def xm (p : IVec3) : IVec3 := ⟨p.x - 1, p.y, p.z⟩

/-- Cell neighbour in the positive y direction. -/
def yp (p : IVec3) : IVec3 := ⟨p.x, p.y + 1, p.z⟩

/-- Cell neighbour in the negative y direction. -/
def ym (p : IVec3) : IVec3 := ⟨p.x, p.y - 1, p.z⟩

/-- Cell neighbour in the positive z direction. -/
def zp (p : IVec3) : IVec3 := ⟨p.x, p.y, p.z + 1⟩

/-- Cell neighbour in the negative z direction. -/
def zm (p : IVec3) : IVec3 := ⟨p.x, p.y, p.z - 1⟩

/-- Membership of a cell in the inclusive index box `[lo, hi]`. -/
def inBox (lo hi p : IVec3) : Prop :=
  lo.x ≤ p.x ∧ p.x ≤ hi.x ∧ lo.y ≤ p.y ∧ p.y ≤ hi.y ∧ lo.z ≤ p.z ∧ p.z ≤ hi.z

instance (lo hi p : IVec3) : Decidable (inBox lo hi p) := by
  unfold inBox; infer_instance

/-- A well-formed box has `lo[d] ≤ hi[d]` in every dimension. -/
def wellFormed (lo hi : IVec3) : Prop :=
  lo.x ≤ hi.x ∧ lo.y ≤ hi.y ∧ lo.z ≤ hi.z

instance (lo hi : IVec3) : Decidable (wellFormed lo hi) := by
  unfold wellFormed; infer_instance

/-- Containment of the box `[lo, hi]` in the box `[Lo, Hi]`. -/
def subBox (lo hi Lo Hi : IVec3) : Prop :=
  Lo.x ≤ lo.x ∧ hi.x ≤ Hi.x ∧ Lo.y ≤ lo.y ∧ hi.y ≤ Hi.y ∧ Lo.z ≤ lo.z ∧ hi.z ≤ Hi.z

instance (lo hi Lo Hi : IVec3) : Decidable (subBox lo hi Lo Hi) := by
  unfold subBox; infer_instance

/-- Two boxes are congruent when they span the same extent in every
dimension: the copy kernel is an index-aligned transfer between boxes of
the same shape. -/
def congruentBox (lo hi lo2 hi2 : IVec3) : Prop :=
  hi.x - lo.x = hi2.x - lo2.x ∧ hi.y - lo.y = hi2.y - lo2.y ∧ hi.z - lo.z = hi2.z - lo2.z

instance (lo hi lo2 hi2 : IVec3) : Decidable (congruentBox lo hi lo2 hi2) := by
  unfold congruentBox; infer_instance

/-- The active box grown by one ghost cell on the low side. -/
def growLo (lo : IVec3) : IVec3 := ⟨lo.x - 1, lo.y - 1, lo.z - 1⟩

/-- The active box grown by one ghost cell on the high side. -/
def growHi (hi : IVec3) : IVec3 := ⟨hi.x + 1, hi.y + 1, hi.z + 1⟩

/-- Second-order centered difference in x, scaled by `1/(2*delta.x)`. -/
def ddx (d : FArr) (c : Int) (delta : QVec3) (p : IVec3) : ℚ :=
  (d c (xp p) - d c (xm p)) / (2 * delta.x)

/-- Second-order centered difference in y, scaled by `1/(2*delta.y)`. -/
def ddy (d : FArr) (c : Int) (delta : QVec3) (p : IVec3) : ℚ :=
  (d c (yp p) - d c (ym p)) / (2 * delta.y)

/-- Second-order centered difference in z, scaled by `1/(2*delta.z)`. -/
def ddz (d : FArr) (c : Int) (delta : QVec3) (p : IVec3) : ℚ :=
  (d c (zp p) - d c (zm p)) / (2 * delta.z)

/-- The centered-difference divergence du/dx + dv/dy + dw/dz of the
velocity block starting at component `vel`. -/
def divuVal (d : FArr) (vel : Int) (delta : QVec3) (p : IVec3) : ℚ :=
  ddx d vel delta p + ddy d (vel + 1) delta p + ddz d (vel + 2) delta p

/-- x component of the centered-difference curl of the velocity block. -/
def curlX (d : FArr) (vel : Int) (delta : QVec3) (p : IVec3) : ℚ :=
  ddy d (vel + 2) delta p - ddz d (vel + 1) delta p

/-- y component of the centered-difference curl of the velocity block. -/
def curlY (d : FArr) (vel : Int) (delta : QVec3) (p : IVec3) : ℚ :=
  ddz d vel delta p - ddx d (vel + 2) delta p

/-- z component of the centered-difference curl of the velocity block. -/
def curlZ (d : FArr) (vel : Int) (delta : QVec3) (p : IVec3) : ℚ :=
  ddx d (vel + 1) delta p - ddy d vel delta p

/-- The scalar vorticity cell value.  The header leaves open whether
`vort_3d` stores the curl vector or its magnitude; the specification
directs the implementer to choose and document a scalar convention.  We
store the squared magnitude of the curl, which is expressible over exact
rationals; it vanishes exactly when the magnitude does, so zero-ness and
translation invariance coincide with the magnitude convention. -/
def vortVal (d : FArr) (vel : Int) (delta : QVec3) (p : IVec3) : ℚ :=
  curlX d vel delta p ^ 2 + curlY d vel delta p ^ 2 + curlZ d vel delta p ^ 2

/-- Preconditions shared by the two differential kernels: well-formed
active box, active box plus one ghost cell of padding contained in the
allocated box (the documented ghost-cell boundary policy for the
centered stencil), velocity block and output component inside
`[0, nComps)`, and positive spacings. -/
def stencilValid (lo hi : IVec3) (nComps : Int) (dlo dhi : IVec3)
    (vel outc : Int) (delta : QVec3) : Prop :=
  wellFormed lo hi ∧ subBox (growLo lo) (growHi hi) dlo dhi ∧
  0 ≤ vel ∧ vel + 2 < nComps ∧ 0 ≤ outc ∧ outc < nComps ∧
  0 < delta.x ∧ 0 < delta.y ∧ 0 < delta.z

instance (lo hi : IVec3) (nComps : Int) (dlo dhi : IVec3)
    (vel outc : Int) (delta : QVec3) :
    Decidable (stencilValid lo hi nComps dlo dhi vel outc delta) := by
  unfold stencilValid; infer_instance

/-- The array produced by the vorticity kernel on a valid invocation:
component `vort` holds the derived vorticity at every cell of the active
box, everything else keeps its value from `d`. -/
def vortApply (lo hi : IVec3) (d : FArr) (vel vort : Int) (delta : QVec3) : FArr :=
  fun c p => if c = vort ∧ inBox lo hi p then vortVal d vel delta p else d c p

/-- The array produced by the divergence kernel on a valid invocation. -/
def divuApply (lo hi : IVec3) (d : FArr) (vel divu : Int) (delta : QVec3) : FArr :=
  fun c p => if c = divu ∧ inBox lo hi p then divuVal d vel delta p else d c p

/-- Modelled from the spec: the body of `vort_3d` is absent from the
repository slice, which holds only its C-linkage declaration in
`AugmentPlotfile_F.H`.  Per the specification it validates its
preconditions and fails fast before any array access, then writes the
scalar vorticity derived by centered differences of the velocity block
`vel..vel+2` into component `vort` at every cell of the active box
`[lo, hi]`, leaving every other component and every cell outside the
active box unchanged. -/
def vort_3d (lo hi : IVec3) (d : FArr) (nComps : Int) (dlo dhi : IVec3)
    (vel vort : Int) (delta : QVec3) : Option FArr :=
  if stencilValid lo hi nComps dlo dhi vel vort delta then
    some (vortApply lo hi d vel vort delta)
  else none

/-- Modelled from the spec: the body of `divu_3d` is absent from the
repository slice, which holds only its C-linkage declaration in
`AugmentPlotfile_F.H`.  Same contract and conventions as `vort_3d`, but
it writes the centered-difference divergence of the velocity block into
component `divu`. -/
def divu_3d (lo hi : IVec3) (d : FArr) (nComps : Int) (dlo dhi : IVec3)
    (vel divu : Int) (delta : QVec3) : Option FArr :=
  if stencilValid lo hi nComps dlo dhi vel divu delta then
    some (divuApply lo hi d vel divu delta)
  else none

/-- The source cell corresponding to destination cell `p` under the
index-aligned transfer between congruent boxes. -/
def mapIdx (srclo dstlo p : IVec3) : IVec3 :=
  ⟨srclo.x + (p.x - dstlo.x), srclo.y + (p.y - dstlo.y), srclo.z + (p.z - dstlo.z)⟩

/-- The destination array produced by the copy kernel on a valid
invocation: component `dstcomp` at every cell of the active destination
box holds the corresponding source value, everything else keeps its
value from `dstd`. -/
def copyApply (srclo : IVec3) (srcd : FArr) (dstlo dsthi : IVec3)
    (dstd : FArr) (srccomp dstcomp : Int) : FArr :=
  fun c p =>
    if c = dstcomp ∧ inBox dstlo dsthi p then srcd srccomp (mapIdx srclo dstlo p)
    else dstd c p

/-- Preconditions of the copy kernel: both active boxes well formed and
contained in their allocated boxes, congruent shapes, and both component
offsets inside their `[0, nComps)` ranges. -/
def copyValid (srclo srchi : IVec3) (srcNComps : Int) (srcdlo srcdhi : IVec3)
    (dstlo dsthi : IVec3) (dstNComps : Int) (dstdlo dstdhi : IVec3)
    (srccomp dstcomp : Int) : Prop :=
  wellFormed srclo srchi ∧ wellFormed dstlo dsthi ∧
  subBox srclo srchi srcdlo srcdhi ∧ subBox dstlo dsthi dstdlo dstdhi ∧
  congruentBox srclo srchi dstlo dsthi ∧
  0 ≤ srccomp ∧ srccomp < srcNComps ∧ 0 ≤ dstcomp ∧ dstcomp < dstNComps

instance (srclo srchi : IVec3) (srcNComps : Int) (srcdlo srcdhi : IVec3)
    (dstlo dsthi : IVec3) (dstNComps : Int) (dstdlo dstdhi : IVec3)
    (srccomp dstcomp : Int) :
    Decidable (copyValid srclo srchi srcNComps srcdlo srcdhi
      dstlo dsthi dstNComps dstdlo dstdhi srccomp dstcomp) := by
  unfold copyValid; infer_instance

/-- Modelled from the spec: the body of `copy_3d` is absent from the
repository slice, which holds only its C-linkage declaration in
`AugmentPlotfile_F.H`.  It validates its preconditions and fails fast
before any array access, then copies one component (the header carries
no component-count argument; the run of components reduces to the single
component `srccomp`) from the active source box into component `dstcomp`
of the active destination box, cell by corresponding cell, leaving every
other destination component and every destination cell outside the
active destination box unchanged. -/
def copy_3d (srclo srchi : IVec3) (srcd : FArr) (srcNComps : Int)
    (srcdlo srcdhi : IVec3) (dstlo dsthi : IVec3) (dstd : FArr)
    (dstNComps : Int) (dstdlo dstdhi : IVec3)
    (srccomp dstcomp : Int) : Option FArr :=
  if copyValid srclo srchi srcNComps srcdlo srcdhi
      dstlo dsthi dstNComps dstdlo dstdhi srccomp dstcomp then
    some (copyApply srclo srcd dstlo dsthi dstd srccomp dstcomp)
  else none

/-- Componentwise sum of index vectors, used to translate boxes and
cells by a constant offset. -/
def IVec3.add (p t : IVec3) : IVec3 := ⟨p.x + t.x, p.y + t.y, p.z + t.z⟩

/-- Componentwise difference of index vectors. -/
def IVec3.sub (p t : IVec3) : IVec3 := ⟨p.x - t.x, p.y - t.y, p.z - t.z⟩

/-- The field array translated by the offset `t`: the value at a
translated cell is the original value at the untranslated cell. -/
def shiftArr (d : FArr) (t : IVec3) : FArr := fun c p => d c (p.sub t)

/-- A centered x difference of a spatially constant component vanishes. -/
lemma ddx_const (d : FArr) (c : Int) (delta : QVec3) (p : IVec3)
    (h : ∀ q r : IVec3, d c q = d c r) : ddx d c delta p = 0 := by
  unfold ddx
  rw [h (xp p) (xm p), sub_self, zero_div]

/-- A centered y difference of a spatially constant component vanishes. -/
lemma ddy_const (d : FArr) (c : Int) (delta : QVec3) (p : IVec3)
    (h : ∀ q r : IVec3, d c q = d c r) : ddy d c delta p = 0 := by
  unfold ddy
  rw [h (yp p) (ym p), sub_self, zero_div]

/-- A centered z difference of a spatially constant component vanishes. -/
lemma ddz_const (d : FArr) (c : Int) (delta : QVec3) (p : IVec3)
    (h : ∀ q r : IVec3, d c q = d c r) : ddz d c delta p = 0 := by
  unfold ddz
  rw [h (zp p) (zm p), sub_self, zero_div]

/-- The divergence cell value of a spatially constant velocity block is
zero. -/
lemma divuVal_const (d : FArr) (vel : Int) (delta : QVec3) (p : IVec3)
    (h : ∀ c, vel ≤ c → c ≤ vel + 2 → ∀ q r : IVec3, d c q = d c r) :
    divuVal d vel delta p = 0 := by
  unfold divuVal
  rw [ddx_const d vel delta p (h vel (by omega) (by omega)),
    ddy_const d (vel + 1) delta p (h (vel + 1) (by omega) (by omega)),
    ddz_const d (vel + 2) delta p (h (vel + 2) (by omega) (by omega))]
  ring

/-- The vorticity cell value of a spatially constant velocity block is
zero. -/
lemma vortVal_const (d : FArr) (vel : Int) (delta : QVec3) (p : IVec3)
    (h : ∀ c, vel ≤ c → c ≤ vel + 2 → ∀ q r : IVec3, d c q = d c r) :
    vortVal d vel delta p = 0 := by
  unfold vortVal curlX curlY curlZ
  rw [ddx_const d (vel + 1) delta p (h (vel + 1) (by omega) (by omega)),
    ddx_const d (vel + 2) delta p (h (vel + 2) (by omega) (by omega)),
    ddy_const d vel delta p (h vel (by omega) (by omega)),
    ddy_const d (vel + 2) delta p (h (vel + 2) (by omega) (by omega)),
    ddz_const d vel delta p (h vel (by omega) (by omega)),
    ddz_const d (vel + 1) delta p (h (vel + 1) (by omega) (by omega))]
  ring

/-- Claim C1: for every spatially constant velocity field over a valid
active box (one ghost cell of padding inside the allocated box, positive
spacings), the divergence computed by `divu_3d` and the vorticity
computed by `vort_3d` are exactly zero at every cell of the active
box. -/
theorem C1_const_velocity_zero (lo hi : IVec3) (d : FArr) (nComps : Int)
    (dlo dhi : IVec3) (vel vortc divuc : Int) (delta : QVec3)
    (hvv : stencilValid lo hi nComps dlo dhi vel vortc delta)
    (hvd : stencilValid lo hi nComps dlo dhi vel divuc delta)
    (hconst : ∀ c, vel ≤ c → c ≤ vel + 2 → ∀ q r : IVec3, d c q = d c r) :
    ∃ fv fd, vort_3d lo hi d nComps dlo dhi vel vortc delta = some fv ∧
      divu_3d lo hi d nComps dlo dhi vel divuc delta = some fd ∧
      ∀ p, inBox lo hi p → fv vortc p = 0 ∧ fd divuc p = 0 := by
  unfold vort_3d divu_3d
  rw [if_pos hvv, if_pos hvd]
  refine ⟨_, _, rfl, rfl, ?_⟩
  intro p hp
  constructor
  · show (if vortc = vortc ∧ inBox lo hi p then vortVal d vel delta p else d vortc p) = 0
    rw [if_pos (And.intro rfl hp)]
    exact vortVal_const d vel delta p hconst
  · show (if divuc = divuc ∧ inBox lo hi p then divuVal d vel delta p else d divuc p) = 0
    rw [if_pos (And.intro rfl hp)]
    exact divuVal_const d vel delta p hconst

/-- Witness for C1: the scenario from the specification, velocity
(1, 2, 3) constant everywhere, active box (0,0,0)-(3,3,3) with one ghost
cell of padding, unit spacing, derived output in component 3. -/
theorem C1_const_velocity_zero_witness :
    stencilValid ⟨0, 0, 0⟩ ⟨3, 3, 3⟩ 4 ⟨-1, -1, -1⟩ ⟨4, 4, 4⟩ 0 3 ⟨1, 1, 1⟩ ∧
    (∃ fv fd, vort_3d ⟨0, 0, 0⟩ ⟨3, 3, 3⟩
        (fun c _ => if c = 0 then 1 else if c = 1 then 2 else if c = 2 then 3 else 0)
        4 ⟨-1, -1, -1⟩ ⟨4, 4, 4⟩ 0 3 ⟨1, 1, 1⟩ = some fv ∧
      divu_3d ⟨0, 0, 0⟩ ⟨3, 3, 3⟩
        (fun c _ => if c = 0 then 1 else if c = 1 then 2 else if c = 2 then 3 else 0)
        4 ⟨-1, -1, -1⟩ ⟨4, 4, 4⟩ 0 3 ⟨1, 1, 1⟩ = some fd ∧
      ∀ p, inBox ⟨0, 0, 0⟩ ⟨3, 3, 3⟩ p → fv 3 p = 0 ∧ fd 3 p = 0) :=
  ⟨by decide,
    C1_const_velocity_zero ⟨0, 0, 0⟩ ⟨3, 3, 3⟩
      (fun c _ => if c = 0 then 1 else if c = 1 then 2 else if c = 2 then 3 else 0)
      4 ⟨-1, -1, -1⟩ ⟨4, 4, 4⟩ 0 3 3 ⟨1, 1, 1⟩
      (by decide) (by decide) (fun c _ _ q r => rfl)⟩

/-- Claim C4: for every valid invocation, `vort_3d` (respectively
`divu_3d`) writes exactly one derived component per cell of the active
box into the `vort` (respectively `divu`) component, and has no side
effect outside that component: every other component, and every cell
outside the active box, holds its original value afterwards. -/
theorem C4_stencil_frame (lo hi : IVec3) (d : FArr) (nComps : Int)
    (dlo dhi : IVec3) (vel vortc divuc : Int) (delta : QVec3)
    (hvv : stencilValid lo hi nComps dlo dhi vel vortc delta)
    (hvd : stencilValid lo hi nComps dlo dhi vel divuc delta) :
    ∃ fv fd, vort_3d lo hi d nComps dlo dhi vel vortc delta = some fv ∧
      divu_3d lo hi d nComps dlo dhi vel divuc delta = some fd ∧
      (∀ p, inBox lo hi p →
        fv vortc p = vortVal d vel delta p ∧ fd divuc p = divuVal d vel delta p) ∧
      (∀ c p, c ≠ vortc ∨ ¬ inBox lo hi p → fv c p = d c p) ∧
      (∀ c p, c ≠ divuc ∨ ¬ inBox lo hi p → fd c p = d c p) := by
  unfold vort_3d divu_3d
  rw [if_pos hvv, if_pos hvd]
  refine ⟨_, _, rfl, rfl, ?_, ?_, ?_⟩
  · intro p hp
    constructor
    · show (if vortc = vortc ∧ inBox lo hi p then vortVal d vel delta p else d vortc p)
        = vortVal d vel delta p
      rw [if_pos (And.intro rfl hp)]
    · show (if divuc = divuc ∧ inBox lo hi p then divuVal d vel delta p else d divuc p)
        = divuVal d vel delta p
      rw [if_pos (And.intro rfl hp)]
  · intro c p hcp
    show (if c = vortc ∧ inBox lo hi p then vortVal d vel delta p else d c p) = d c p
    rw [if_neg (by tauto)]
  · intro c p hcp
    show (if c = divuc ∧ inBox lo hi p then divuVal d vel delta p else d c p) = d c p
    rw [if_neg (by tauto)]

/-- Witness for C4: a concrete 2x2x2 active box with one ghost cell of
padding, four components, derived outputs in component 3. -/
theorem C4_stencil_frame_witness :
    stencilValid ⟨0, 0, 0⟩ ⟨1, 1, 1⟩ 4 ⟨-1, -1, -1⟩ ⟨2, 2, 2⟩ 0 3 ⟨1, 1, 1⟩ ∧
    (∃ fv fd, vort_3d ⟨0, 0, 0⟩ ⟨1, 1, 1⟩ (fun c p => (c * p.x : ℚ))
        4 ⟨-1, -1, -1⟩ ⟨2, 2, 2⟩ 0 3 ⟨1, 1, 1⟩ = some fv ∧
      divu_3d ⟨0, 0, 0⟩ ⟨1, 1, 1⟩ (fun c p => (c * p.x : ℚ))
        4 ⟨-1, -1, -1⟩ ⟨2, 2, 2⟩ 0 3 ⟨1, 1, 1⟩ = some fd ∧
      (∀ p, inBox ⟨0, 0, 0⟩ ⟨1, 1, 1⟩ p →
        fv 3 p = vortVal (fun c p => (c * p.x : ℚ)) 0 ⟨1, 1, 1⟩ p ∧
        fd 3 p = divuVal (fun c p => (c * p.x : ℚ)) 0 ⟨1, 1, 1⟩ p) ∧
      (∀ c p, c ≠ 3 ∨ ¬ inBox ⟨0, 0, 0⟩ ⟨1, 1, 1⟩ p → fv c p = (c * p.x : ℚ)) ∧
      (∀ c p, c ≠ 3 ∨ ¬ inBox ⟨0, 0, 0⟩ ⟨1, 1, 1⟩ p → fd c p = (c * p.x : ℚ))) :=
  ⟨by decide,
    C4_stencil_frame ⟨0, 0, 0⟩ ⟨1, 1, 1⟩ (fun c p => (c * p.x : ℚ))
      4 ⟨-1, -1, -1⟩ ⟨2, 2, 2⟩ 0 3 3 ⟨1, 1, 1⟩ (by decide) (by decide)⟩

/-- Claim C2: for congruent active source and destination boxes, each
contained in its allocated box, with valid component offsets, `copy_3d`
succeeds and makes every cell of the active destination box (in the
copied component) equal to the corresponding value of the active source
box, with no partial writes. -/
theorem C2_copy_values (srclo srchi : IVec3) (srcd : FArr) (srcN : Int)
    (srcdlo srcdhi dstlo dsthi : IVec3) (dstd : FArr) (dstN : Int)
    (dstdlo dstdhi : IVec3) (sc dc : Int)
    (hv : copyValid srclo srchi srcN srcdlo srcdhi
      dstlo dsthi dstN dstdlo dstdhi sc dc) :
    ∃ f, copy_3d srclo srchi srcd srcN srcdlo srcdhi
        dstlo dsthi dstd dstN dstdlo dstdhi sc dc = some f ∧
      ∀ p, inBox dstlo dsthi p → f dc p = srcd sc (mapIdx srclo dstlo p) := by
  unfold copy_3d
  rw [if_pos hv]
  refine ⟨_, rfl, ?_⟩
  intro p hp
  show (if dc = dc ∧ inBox dstlo dsthi p then srcd sc (mapIdx srclo dstlo p) else dstd dc p)
    = srcd sc (mapIdx srclo dstlo p)
  rw [if_pos (And.intro rfl hp)]

/-- Witness for C2: the specification scenario, a 2x2x2 box copied
between two independently allocated arrays, source component 0 to
destination component 2. -/
theorem C2_copy_values_witness :
    copyValid ⟨0, 0, 0⟩ ⟨1, 1, 1⟩ 1 ⟨-1, -1, -1⟩ ⟨2, 2, 2⟩
      ⟨5, 5, 5⟩ ⟨6, 6, 6⟩ 3 ⟨5, 5, 5⟩ ⟨7, 7, 7⟩ 0 2 ∧
    (∃ f, copy_3d ⟨0, 0, 0⟩ ⟨1, 1, 1⟩ (fun c p => (c + p.x + p.y : ℚ)) 1
        ⟨-1, -1, -1⟩ ⟨2, 2, 2⟩ ⟨5, 5, 5⟩ ⟨6, 6, 6⟩ (fun _ _ => 9) 3
        ⟨5, 5, 5⟩ ⟨7, 7, 7⟩ 0 2 = some f ∧
      ∀ p, inBox ⟨5, 5, 5⟩ ⟨6, 6, 6⟩ p →
        f 2 p = (fun c p => (c + p.x + p.y : ℚ)) 0 (mapIdx ⟨0, 0, 0⟩ ⟨5, 5, 5⟩ p)) :=
  ⟨by decide,
    C2_copy_values ⟨0, 0, 0⟩ ⟨1, 1, 1⟩ (fun c p => (c + p.x + p.y : ℚ)) 1
      ⟨-1, -1, -1⟩ ⟨2, 2, 2⟩ ⟨5, 5, 5⟩ ⟨6, 6, 6⟩ (fun _ _ => 9) 3
      ⟨5, 5, 5⟩ ⟨7, 7, 7⟩ 0 2 (by decide)⟩

/-- Claim C3: for every valid invocation, `copy_3d` mutates only the
destination array's addressed region: destination values at components
other than the copied one, and at cells outside the active destination
box, are unchanged. -/
theorem C3_copy_frame (srclo srchi : IVec3) (srcd : FArr) (srcN : Int)
    (srcdlo srcdhi dstlo dsthi : IVec3) (dstd : FArr) (dstN : Int)
    (dstdlo dstdhi : IVec3) (sc dc : Int)
    (hv : copyValid srclo srchi srcN srcdlo srcdhi
      dstlo dsthi dstN dstdlo dstdhi sc dc) :
    ∃ f, copy_3d srclo srchi srcd srcN srcdlo srcdhi
        dstlo dsthi dstd dstN dstdlo dstdhi sc dc = some f ∧
      ∀ c p, c ≠ dc ∨ ¬ inBox dstlo dsthi p → f c p = dstd c p := by
  unfold copy_3d
  rw [if_pos hv]
  refine ⟨_, rfl, ?_⟩
  intro c p hcp
  show (if c = dc ∧ inBox dstlo dsthi p then srcd sc (mapIdx srclo dstlo p) else dstd c p)
    = dstd c p
  rw [if_neg (by tauto)]

/-- Witness for C3: the same concrete scenario as the C2 witness; all
destination components other than 2, and all cells outside the active
destination box, keep their original value 9. -/
theorem C3_copy_frame_witness :
    copyValid ⟨0, 0, 0⟩ ⟨1, 1, 1⟩ 1 ⟨-1, -1, -1⟩ ⟨2, 2, 2⟩
      ⟨5, 5, 5⟩ ⟨6, 6, 6⟩ 3 ⟨5, 5, 5⟩ ⟨7, 7, 7⟩ 0 2 ∧
    (∃ f, copy_3d ⟨0, 0, 0⟩ ⟨1, 1, 1⟩ (fun c p => (c + p.x + p.y : ℚ)) 1
        ⟨-1, -1, -1⟩ ⟨2, 2, 2⟩ ⟨5, 5, 5⟩ ⟨6, 6, 6⟩ (fun _ _ => 9) 3
        ⟨5, 5, 5⟩ ⟨7, 7, 7⟩ 0 2 = some f ∧
      ∀ c p, c ≠ 2 ∨ ¬ inBox ⟨5, 5, 5⟩ ⟨6, 6, 6⟩ p → f c p = 9) :=
  ⟨by decide,
    C3_copy_frame ⟨0, 0, 0⟩ ⟨1, 1, 1⟩ (fun c p => (c + p.x + p.y : ℚ)) 1
      ⟨-1, -1, -1⟩ ⟨2, 2, 2⟩ ⟨5, 5, 5⟩ ⟨6, 6, 6⟩ (fun _ _ => 9) 3
      ⟨5, 5, 5⟩ ⟨7, 7, 7⟩ 0 2 (by decide)⟩

/-- Translating then untranslating the positive x neighbour of a cell
recovers the neighbour of the untranslated cell. -/
lemma shift_xp (p t : IVec3) : (xp (p.add t)).sub t = xp p := by
  simp only [xp, IVec3.add, IVec3.sub, IVec3.mk.injEq]
  omega

/-- As `shift_xp`, for the negative x neighbour. -/
lemma shift_xm (p t : IVec3) : (xm (p.add t)).sub t = xm p := by
  simp only [xm, IVec3.add, IVec3.sub, IVec3.mk.injEq]
  omega

/-- As `shift_xp`, for the positive y neighbour. -/
lemma shift_yp (p t : IVec3) : (yp (p.add t)).sub t = yp p := by
  simp only [yp, IVec3.add, IVec3.sub, IVec3.mk.injEq]
  omega

/-- As `shift_xp`, for the negative y neighbour. -/
lemma shift_ym (p t : IVec3) : (ym (p.add t)).sub t = ym p := by
  simp only [ym, IVec3.add, IVec3.sub, IVec3.mk.injEq]
  omega

/-- As `shift_xp`, for the positive z neighbour. -/
lemma shift_zp (p t : IVec3) : (zp (p.add t)).sub t = zp p := by
  simp only [zp, IVec3.add, IVec3.sub, IVec3.mk.injEq]
  omega

/-- As `shift_xp`, for the negative z neighbour. -/
lemma shift_zm (p t : IVec3) : (zm (p.add t)).sub t = zm p := by
  simp only [zm, IVec3.add, IVec3.sub, IVec3.mk.injEq]
  omega

/-- The centered x difference commutes with translation of the array and
the evaluation cell. -/
lemma ddx_shift (d : FArr) (c : Int) (delta : QVec3) (t p : IVec3) :
    ddx (shiftArr d t) c delta (p.add t) = ddx d c delta p := by
  unfold ddx shiftArr
  rw [shift_xp, shift_xm]

/-- The centered y difference commutes with translation. -/
lemma ddy_shift (d : FArr) (c : Int) (delta : QVec3) (t p : IVec3) :
    ddy (shiftArr d t) c delta (p.add t) = ddy d c delta p := by
  unfold ddy shiftArr
  rw [shift_yp, shift_ym]

/-- The centered z difference commutes with translation. -/
lemma ddz_shift (d : FArr) (c : Int) (delta : QVec3) (t p : IVec3) :
    ddz (shiftArr d t) c delta (p.add t) = ddz d c delta p := by
  unfold ddz shiftArr
  rw [shift_zp, shift_zm]

/-- The divergence cell value commutes with translation. -/
lemma divuVal_shift (d : FArr) (vel : Int) (delta : QVec3) (t p : IVec3) :
    divuVal (shiftArr d t) vel delta (p.add t) = divuVal d vel delta p := by
  unfold divuVal
  rw [ddx_shift, ddy_shift, ddz_shift]

/-- The vorticity cell value commutes with translation. -/
lemma vortVal_shift (d : FArr) (vel : Int) (delta : QVec3) (t p : IVec3) :
    vortVal (shiftArr d t) vel delta (p.add t) = vortVal d vel delta p := by
  unfold vortVal curlX curlY curlZ
  rw [ddx_shift, ddx_shift, ddy_shift, ddy_shift, ddz_shift, ddz_shift]

/-- Box membership is invariant under translating box and cell
together. -/
lemma inBox_shift (lo hi p t : IVec3) :
    inBox (lo.add t) (hi.add t) (p.add t) ↔ inBox lo hi p := by
  simp only [inBox, IVec3.add]
  omega

/-- The stencil preconditions are invariant under translating the active
and allocated boxes together. -/
lemma stencilValid_shift (lo hi : IVec3) (nComps : Int) (dlo dhi : IVec3)
    (vel outc : Int) (delta : QVec3) (t : IVec3)
    (hv : stencilValid lo hi nComps dlo dhi vel outc delta) :
    stencilValid (lo.add t) (hi.add t) nComps (dlo.add t) (dhi.add t)
      vel outc delta := by
  obtain ⟨h1, h2, hrest⟩ := hv
  refine ⟨?_, ?_, hrest⟩
  · simp only [wellFormed, IVec3.add] at h1 ⊢
    omega
  · simp only [subBox, growLo, growHi, IVec3.add] at h2 ⊢
    omega

/-- Claim C5: for every valid active box strictly interior to the
allocated box and every constant integer offset, translating the active
box, the allocated box, and the array data all by that offset, with
spacing unchanged, leaves the outputs of `vort_3d` and `divu_3d` at
corresponding cells unchanged. -/
theorem C5_translation_invariance (lo hi : IVec3) (d : FArr) (nComps : Int)
    (dlo dhi : IVec3) (vel vortc divuc : Int) (delta : QVec3) (t : IVec3)
    (hvv : stencilValid lo hi nComps dlo dhi vel vortc delta)
    (hvd : stencilValid lo hi nComps dlo dhi vel divuc delta) :
    ∃ fv fd gv gd,
      vort_3d lo hi d nComps dlo dhi vel vortc delta = some fv ∧
      divu_3d lo hi d nComps dlo dhi vel divuc delta = some fd ∧
      vort_3d (lo.add t) (hi.add t) (shiftArr d t) nComps
        (dlo.add t) (dhi.add t) vel vortc delta = some gv ∧
      divu_3d (lo.add t) (hi.add t) (shiftArr d t) nComps
        (dlo.add t) (dhi.add t) vel divuc delta = some gd ∧
      ∀ p, inBox lo hi p →
        gv vortc (p.add t) = fv vortc p ∧ gd divuc (p.add t) = fd divuc p := by
  unfold vort_3d divu_3d
  rw [if_pos hvv, if_pos hvd,
    if_pos (stencilValid_shift lo hi nComps dlo dhi vel vortc delta t hvv),
    if_pos (stencilValid_shift lo hi nComps dlo dhi vel divuc delta t hvd)]
  refine ⟨_, _, _, _, rfl, rfl, rfl, rfl, ?_⟩
  intro p hp
  constructor
  · show (if vortc = vortc ∧ inBox (lo.add t) (hi.add t) (p.add t) then
        vortVal (shiftArr d t) vel delta (p.add t) else shiftArr d t vortc (p.add t))
      = (if vortc = vortc ∧ inBox lo hi p then vortVal d vel delta p else d vortc p)
    rw [if_pos (And.intro rfl ((inBox_shift lo hi p t).mpr hp)),
      if_pos (And.intro rfl hp), vortVal_shift]
  · show (if divuc = divuc ∧ inBox (lo.add t) (hi.add t) (p.add t) then
        divuVal (shiftArr d t) vel delta (p.add t) else shiftArr d t divuc (p.add t))
      = (if divuc = divuc ∧ inBox lo hi p then divuVal d vel delta p else d divuc p)
    rw [if_pos (And.intro rfl ((inBox_shift lo hi p t).mpr hp)),
      if_pos (And.intro rfl hp), divuVal_shift]

/-- Witness for C5: a 2x2x2 active box with one ghost cell of padding,
translated by the offset (7, -3, 2). -/
theorem C5_translation_invariance_witness :
    stencilValid ⟨0, 0, 0⟩ ⟨1, 1, 1⟩ 4 ⟨-1, -1, -1⟩ ⟨2, 2, 2⟩ 0 3 ⟨1, 1, 1⟩ ∧
    (∃ fv fd gv gd,
      vort_3d ⟨0, 0, 0⟩ ⟨1, 1, 1⟩ (fun c p => (c + p.x * p.y : ℚ)) 4
        ⟨-1, -1, -1⟩ ⟨2, 2, 2⟩ 0 3 ⟨1, 1, 1⟩ = some fv ∧
      divu_3d ⟨0, 0, 0⟩ ⟨1, 1, 1⟩ (fun c p => (c + p.x * p.y : ℚ)) 4
        ⟨-1, -1, -1⟩ ⟨2, 2, 2⟩ 0 3 ⟨1, 1, 1⟩ = some fd ∧
      vort_3d (IVec3.add ⟨0, 0, 0⟩ ⟨7, -3, 2⟩) (IVec3.add ⟨1, 1, 1⟩ ⟨7, -3, 2⟩)
        (shiftArr (fun c p => (c + p.x * p.y : ℚ)) ⟨7, -3, 2⟩) 4
        (IVec3.add ⟨-1, -1, -1⟩ ⟨7, -3, 2⟩) (IVec3.add ⟨2, 2, 2⟩ ⟨7, -3, 2⟩)
        0 3 ⟨1, 1, 1⟩ = some gv ∧
      divu_3d (IVec3.add ⟨0, 0, 0⟩ ⟨7, -3, 2⟩) (IVec3.add ⟨1, 1, 1⟩ ⟨7, -3, 2⟩)
        (shiftArr (fun c p => (c + p.x * p.y : ℚ)) ⟨7, -3, 2⟩) 4
        (IVec3.add ⟨-1, -1, -1⟩ ⟨7, -3, 2⟩) (IVec3.add ⟨2, 2, 2⟩ ⟨7, -3, 2⟩)
        0 3 ⟨1, 1, 1⟩ = some gd ∧
      ∀ p, inBox ⟨0, 0, 0⟩ ⟨1, 1, 1⟩ p →
        gv 3 (p.add ⟨7, -3, 2⟩) = fv 3 p ∧ gd 3 (p.add ⟨7, -3, 2⟩) = fd 3 p) :=
  ⟨by decide,
    C5_translation_invariance ⟨0, 0, 0⟩ ⟨1, 1, 1⟩ (fun c p => (c + p.x * p.y : ℚ)) 4
      ⟨-1, -1, -1⟩ ⟨2, 2, 2⟩ 0 3 3 ⟨1, 1, 1⟩ ⟨7, -3, 2⟩ (by decide) (by decide)⟩

/-- The corresponding source cell of a destination cell of the active
destination box lies in the active source box, for congruent boxes. -/
lemma mapIdx_mem (srclo srchi dstlo dsthi p : IVec3)
    (hc : congruentBox srclo srchi dstlo dsthi)
    (hp : inBox dstlo dsthi p) :
    inBox srclo srchi (mapIdx srclo dstlo p) := by
  simp only [inBox, mapIdx, congruentBox] at hc hp ⊢
  omega

/-- Mapping a cell from one box to a congruent box and back is the
identity. -/
lemma mapIdx_inv (srclo dstlo p : IVec3) :
    mapIdx srclo dstlo (mapIdx dstlo srclo p) = p := by
  cases p
  simp only [mapIdx, IVec3.mk.injEq]
  omega

/-- The copy preconditions with the source and destination roles
swapped. -/
lemma copyValid_swap (srclo srchi : IVec3) (srcN : Int)
    (srcdlo srcdhi dstlo dsthi : IVec3) (dstN : Int)
    (dstdlo dstdhi : IVec3) (sc dc : Int)
    (hv : copyValid srclo srchi srcN srcdlo srcdhi
      dstlo dsthi dstN dstdlo dstdhi sc dc) :
    copyValid dstlo dsthi dstN dstdlo dstdhi
      srclo srchi srcN srcdlo srcdhi dc sc := by
  obtain ⟨h1, h2, h3, h4, h5, h6, h7, h8, h9⟩ := hv
  exact ⟨h2, h1, h4, h3, ⟨h5.1.symm, h5.2.1.symm, h5.2.2.symm⟩, h8, h9, h6, h7⟩

/-- Claim C6: copying region R from A to B and then copying the same
shape back from B to A with the same component offsets reproduces A's
original values: the restored array agrees with A at every component and
cell. -/
theorem C6_copy_roundtrip (srclo srchi : IVec3) (A : FArr) (srcN : Int)
    (srcdlo srcdhi dstlo dsthi : IVec3) (B : FArr) (dstN : Int)
    (dstdlo dstdhi : IVec3) (sc dc : Int)
    (hv : copyValid srclo srchi srcN srcdlo srcdhi
      dstlo dsthi dstN dstdlo dstdhi sc dc) :
    ∃ f g, copy_3d srclo srchi A srcN srcdlo srcdhi
        dstlo dsthi B dstN dstdlo dstdhi sc dc = some f ∧
      copy_3d dstlo dsthi f dstN dstdlo dstdhi
        srclo srchi A srcN srcdlo srcdhi dc sc = some g ∧
      ∀ c p, g c p = A c p := by
  unfold copy_3d
  rw [if_pos hv]
  refine ⟨copyApply srclo A dstlo dsthi B sc dc,
    copyApply dstlo (copyApply srclo A dstlo dsthi B sc dc) srclo srchi A dc sc,
    rfl,
    if_pos (copyValid_swap srclo srchi srcN srcdlo srcdhi
      dstlo dsthi dstN dstdlo dstdhi sc dc hv),
    ?_⟩
  intro c p
  show (if c = sc ∧ inBox srclo srchi p then
      copyApply srclo A dstlo dsthi B sc dc dc (mapIdx dstlo srclo p)
    else A c p) = A c p
  by_cases hcp : c = sc ∧ inBox srclo srchi p
  · rw [if_pos hcp]
    show (if dc = dc ∧ inBox dstlo dsthi (mapIdx dstlo srclo p) then
        A sc (mapIdx srclo dstlo (mapIdx dstlo srclo p))
      else B dc (mapIdx dstlo srclo p)) = A c p
    have hmem : inBox dstlo dsthi (mapIdx dstlo srclo p) :=
      mapIdx_mem dstlo dsthi srclo srchi p
        (copyValid_swap srclo srchi srcN srcdlo srcdhi
          dstlo dsthi dstN dstdlo dstdhi sc dc hv).2.2.2.2.1 hcp.2
    rw [if_pos (And.intro rfl hmem), mapIdx_inv, hcp.1]
  · rw [if_neg hcp]

/-- Witness for C6: a 2x2x2 region copied from component 0 of A into
component 2 of B and back; A is fully restored. -/
theorem C6_copy_roundtrip_witness :
    copyValid ⟨0, 0, 0⟩ ⟨1, 1, 1⟩ 1 ⟨-1, -1, -1⟩ ⟨2, 2, 2⟩
      ⟨5, 5, 5⟩ ⟨6, 6, 6⟩ 3 ⟨5, 5, 5⟩ ⟨7, 7, 7⟩ 0 2 ∧
    (∃ f g, copy_3d ⟨0, 0, 0⟩ ⟨1, 1, 1⟩ (fun c p => (c + p.x - p.z : ℚ)) 1
        ⟨-1, -1, -1⟩ ⟨2, 2, 2⟩ ⟨5, 5, 5⟩ ⟨6, 6, 6⟩ (fun _ _ => 4) 3
        ⟨5, 5, 5⟩ ⟨7, 7, 7⟩ 0 2 = some f ∧
      copy_3d ⟨5, 5, 5⟩ ⟨6, 6, 6⟩ f 3 ⟨5, 5, 5⟩ ⟨7, 7, 7⟩
        ⟨0, 0, 0⟩ ⟨1, 1, 1⟩ (fun c p => (c + p.x - p.z : ℚ)) 1
        ⟨-1, -1, -1⟩ ⟨2, 2, 2⟩ 2 0 = some g ∧
      ∀ c p, g c p = (c + p.x - p.z : ℚ)) :=
  ⟨by decide,
    C6_copy_roundtrip ⟨0, 0, 0⟩ ⟨1, 1, 1⟩ (fun c p => (c + p.x - p.z : ℚ)) 1
      ⟨-1, -1, -1⟩ ⟨2, 2, 2⟩ ⟨5, 5, 5⟩ ⟨6, 6, 6⟩ (fun _ _ => 4) 3
      ⟨5, 5, 5⟩ ⟨7, 7, 7⟩ 0 2 (by decide)⟩

/-- Claim C7: `copy_3d` is idempotent: performing the copy once and then
again with identical arguments (the destination now holding the first
result) yields the same destination contents as performing it once. -/
theorem C7_copy_idempotent (srclo srchi : IVec3) (srcd : FArr) (srcN : Int)
    (srcdlo srcdhi dstlo dsthi : IVec3) (dstd : FArr) (dstN : Int)
    (dstdlo dstdhi : IVec3) (sc dc : Int)
    (hv : copyValid srclo srchi srcN srcdlo srcdhi
      dstlo dsthi dstN dstdlo dstdhi sc dc) :
    ∃ f g, copy_3d srclo srchi srcd srcN srcdlo srcdhi
        dstlo dsthi dstd dstN dstdlo dstdhi sc dc = some f ∧
      copy_3d srclo srchi srcd srcN srcdlo srcdhi
        dstlo dsthi f dstN dstdlo dstdhi sc dc = some g ∧
      ∀ c p, g c p = f c p := by
  unfold copy_3d
  rw [if_pos hv]
  refine ⟨copyApply srclo srcd dstlo dsthi dstd sc dc,
    copyApply srclo srcd dstlo dsthi
      (copyApply srclo srcd dstlo dsthi dstd sc dc) sc dc,
    rfl, if_pos hv, ?_⟩
  intro c p
  unfold copyApply
  by_cases hcp : c = dc ∧ inBox dstlo dsthi p
  · simp only [if_pos hcp]
  · simp only [if_neg hcp]

/-- Witness for C7: the same concrete 2x2x2 copy as the C2 witness,
performed twice. -/
theorem C7_copy_idempotent_witness :
    copyValid ⟨0, 0, 0⟩ ⟨1, 1, 1⟩ 1 ⟨-1, -1, -1⟩ ⟨2, 2, 2⟩
      ⟨5, 5, 5⟩ ⟨6, 6, 6⟩ 3 ⟨5, 5, 5⟩ ⟨7, 7, 7⟩ 0 2 ∧
    (∃ f g, copy_3d ⟨0, 0, 0⟩ ⟨1, 1, 1⟩ (fun c p => (c * p.y : ℚ)) 1
        ⟨-1, -1, -1⟩ ⟨2, 2, 2⟩ ⟨5, 5, 5⟩ ⟨6, 6, 6⟩ (fun _ _ => 8) 3
        ⟨5, 5, 5⟩ ⟨7, 7, 7⟩ 0 2 = some f ∧
      copy_3d ⟨0, 0, 0⟩ ⟨1, 1, 1⟩ (fun c p => (c * p.y : ℚ)) 1
        ⟨-1, -1, -1⟩ ⟨2, 2, 2⟩ ⟨5, 5, 5⟩ ⟨6, 6, 6⟩ f 3
        ⟨5, 5, 5⟩ ⟨7, 7, 7⟩ 0 2 = some g ∧
      ∀ c p, g c p = f c p) :=
  ⟨by decide,
    C7_copy_idempotent ⟨0, 0, 0⟩ ⟨1, 1, 1⟩ (fun c p => (c * p.y : ℚ)) 1
      ⟨-1, -1, -1⟩ ⟨2, 2, 2⟩ ⟨5, 5, 5⟩ ⟨6, 6, 6⟩ (fun _ _ => 8) 3
      ⟨5, 5, 5⟩ ⟨7, 7, 7⟩ 0 2 (by decide)⟩

/-- Claim C8: for every invocation of any of the three kernels whose
arguments violate a precondition (malformed box, active box not
contained in the allocated box, component offset outside `[0, nComps)`,
or non-positive spacing), the kernel detects the violation and fails
fast, returning the explicit error value `none`.  The array arguments
are universally quantified and never constrained, so the failure happens
before (and independently of) any array access. -/
theorem C8_fail_fast (lo hi : IVec3) (d : FArr) (nComps : Int)
    (dlo dhi : IVec3) (vel vortc divuc : Int) (delta : QVec3)
    (srclo srchi : IVec3) (srcd : FArr) (srcN : Int)
    (srcdlo srcdhi dstlo dsthi : IVec3) (dstd : FArr) (dstN : Int)
    (dstdlo dstdhi : IVec3) (sc dc : Int)
    (hnv : ¬ stencilValid lo hi nComps dlo dhi vel vortc delta)
    (hnd : ¬ stencilValid lo hi nComps dlo dhi vel divuc delta)
    (hnc : ¬ copyValid srclo srchi srcN srcdlo srcdhi
      dstlo dsthi dstN dstdlo dstdhi sc dc) :
    vort_3d lo hi d nComps dlo dhi vel vortc delta = none ∧
    divu_3d lo hi d nComps dlo dhi vel divuc delta = none ∧
    copy_3d srclo srchi srcd srcN srcdlo srcdhi
      dstlo dsthi dstd dstN dstdlo dstdhi sc dc = none := by
  unfold vort_3d divu_3d copy_3d
  exact ⟨if_neg hnv, if_neg hnd, if_neg hnc⟩

/-- Witness for C8: a malformed active box (`lo.x > hi.x`) makes all
three kernels return `none`. -/
theorem C8_fail_fast_witness :
    ¬ stencilValid ⟨1, 0, 0⟩ ⟨0, 0, 0⟩ 4 ⟨-9, -9, -9⟩ ⟨9, 9, 9⟩ 0 3 ⟨1, 1, 1⟩ ∧
    ¬ copyValid ⟨1, 0, 0⟩ ⟨0, 0, 0⟩ 1 ⟨-9, -9, -9⟩ ⟨9, 9, 9⟩
      ⟨1, 0, 0⟩ ⟨0, 0, 0⟩ 1 ⟨-9, -9, -9⟩ ⟨9, 9, 9⟩ 0 0 ∧
    (vort_3d ⟨1, 0, 0⟩ ⟨0, 0, 0⟩ (fun _ _ => 5) 4 ⟨-9, -9, -9⟩ ⟨9, 9, 9⟩
        0 3 ⟨1, 1, 1⟩ = none ∧
      divu_3d ⟨1, 0, 0⟩ ⟨0, 0, 0⟩ (fun _ _ => 5) 4 ⟨-9, -9, -9⟩ ⟨9, 9, 9⟩
        0 3 ⟨1, 1, 1⟩ = none ∧
      copy_3d ⟨1, 0, 0⟩ ⟨0, 0, 0⟩ (fun _ _ => 5) 1 ⟨-9, -9, -9⟩ ⟨9, 9, 9⟩
        ⟨1, 0, 0⟩ ⟨0, 0, 0⟩ (fun _ _ => 6) 1 ⟨-9, -9, -9⟩ ⟨9, 9, 9⟩ 0 0 = none) :=
  ⟨by decide, by decide,
    C8_fail_fast ⟨1, 0, 0⟩ ⟨0, 0, 0⟩ (fun _ _ => 5) 4 ⟨-9, -9, -9⟩ ⟨9, 9, 9⟩
      0 3 3 ⟨1, 1, 1⟩ ⟨1, 0, 0⟩ ⟨0, 0, 0⟩ (fun _ _ => 5) 1
      ⟨-9, -9, -9⟩ ⟨9, 9, 9⟩ ⟨1, 0, 0⟩ ⟨0, 0, 0⟩ (fun _ _ => 6) 1
      ⟨-9, -9, -9⟩ ⟨9, 9, 9⟩ 0 0 (by decide) (by decide) (by decide)⟩

/-- The centered x difference depends only on the values of the
differenced component. -/
lemma ddx_congr (d1 d2 : FArr) (c : Int) (delta : QVec3) (p : IVec3)
    (h : ∀ q, d1 c q = d2 c q) : ddx d1 c delta p = ddx d2 c delta p := by
  unfold ddx
  rw [h, h]

/-- The centered y difference depends only on the values of the
differenced component. -/
lemma ddy_congr (d1 d2 : FArr) (c : Int) (delta : QVec3) (p : IVec3)
    (h : ∀ q, d1 c q = d2 c q) : ddy d1 c delta p = ddy d2 c delta p := by
  unfold ddy
  rw [h, h]

/-- The centered z difference depends only on the values of the
differenced component. -/
lemma ddz_congr (d1 d2 : FArr) (c : Int) (delta : QVec3) (p : IVec3)
    (h : ∀ q, d1 c q = d2 c q) : ddz d1 c delta p = ddz d2 c delta p := by
  unfold ddz
  rw [h, h]

/-- The divergence cell value depends only on the velocity block. -/
lemma divuVal_congr (d1 d2 : FArr) (vel : Int) (delta : QVec3) (p : IVec3)
    (h : ∀ c q, vel ≤ c → c ≤ vel + 2 → d1 c q = d2 c q) :
    divuVal d1 vel delta p = divuVal d2 vel delta p := by
  unfold divuVal
  rw [ddx_congr d1 d2 vel delta p (fun q => h vel q (by omega) (by omega)),
    ddy_congr d1 d2 (vel + 1) delta p (fun q => h (vel + 1) q (by omega) (by omega)),
    ddz_congr d1 d2 (vel + 2) delta p (fun q => h (vel + 2) q (by omega) (by omega))]

/-- The vorticity cell value depends only on the velocity block. -/
lemma vortVal_congr (d1 d2 : FArr) (vel : Int) (delta : QVec3) (p : IVec3)
    (h : ∀ c q, vel ≤ c → c ≤ vel + 2 → d1 c q = d2 c q) :
    vortVal d1 vel delta p = vortVal d2 vel delta p := by
  unfold vortVal curlX curlY curlZ
  rw [ddx_congr d1 d2 (vel + 1) delta p (fun q => h (vel + 1) q (by omega) (by omega)),
    ddx_congr d1 d2 (vel + 2) delta p (fun q => h (vel + 2) q (by omega) (by omega)),
    ddy_congr d1 d2 vel delta p (fun q => h vel q (by omega) (by omega)),
    ddy_congr d1 d2 (vel + 2) delta p (fun q => h (vel + 2) q (by omega) (by omega)),
    ddz_congr d1 d2 vel delta p (fun q => h vel q (by omega) (by omega)),
    ddz_congr d1 d2 (vel + 1) delta p (fun q => h (vel + 1) q (by omega) (by omega))]

/-- Claim C9: each kernel is a pure, deterministic function of its
declared inputs.  In this functional model two invocations on identical
inputs are definitionally equal; the substantial content proved here is
that no other state is read: the derived values written by `vort_3d` and
`divu_3d` depend only on the three velocity components, and the values
written by `copy_3d` depend only on the copied source component over the
active source box, so arrays agreeing on those inputs produce identical
written contents. -/
theorem C9_pure_input_dependence (lo hi : IVec3) (d1 d2 : FArr)
    (nComps : Int) (dlo dhi : IVec3) (vel vortc divuc : Int) (delta : QVec3)
    (srclo srchi : IVec3) (sd1 sd2 : FArr) (srcN : Int)
    (srcdlo srcdhi dstlo dsthi : IVec3) (dstd : FArr) (dstN : Int)
    (dstdlo dstdhi : IVec3) (sc dc : Int)
    (hvv : stencilValid lo hi nComps dlo dhi vel vortc delta)
    (hvd : stencilValid lo hi nComps dlo dhi vel divuc delta)
    (hvc : copyValid srclo srchi srcN srcdlo srcdhi
      dstlo dsthi dstN dstdlo dstdhi sc dc)
    (hagree : ∀ c q, vel ≤ c → c ≤ vel + 2 → d1 c q = d2 c q)
    (hsagree : ∀ q, inBox srclo srchi q → sd1 sc q = sd2 sc q) :
    ∃ fv1 fv2 fd1 fd2 g1 g2,
      vort_3d lo hi d1 nComps dlo dhi vel vortc delta = some fv1 ∧
      vort_3d lo hi d2 nComps dlo dhi vel vortc delta = some fv2 ∧
      divu_3d lo hi d1 nComps dlo dhi vel divuc delta = some fd1 ∧
      divu_3d lo hi d2 nComps dlo dhi vel divuc delta = some fd2 ∧
      copy_3d srclo srchi sd1 srcN srcdlo srcdhi
        dstlo dsthi dstd dstN dstdlo dstdhi sc dc = some g1 ∧
      copy_3d srclo srchi sd2 srcN srcdlo srcdhi
        dstlo dsthi dstd dstN dstdlo dstdhi sc dc = some g2 ∧
      (∀ p, inBox lo hi p →
        fv1 vortc p = fv2 vortc p ∧ fd1 divuc p = fd2 divuc p) ∧
      (∀ c p, g1 c p = g2 c p) := by
  unfold vort_3d divu_3d copy_3d
  simp only [if_pos hvv, if_pos hvd, if_pos hvc]
  refine ⟨_, _, _, _, _, _, rfl, rfl, rfl, rfl, rfl, rfl, ?_, ?_⟩
  · intro p hp
    constructor
    · show (if vortc = vortc ∧ inBox lo hi p then vortVal d1 vel delta p else d1 vortc p)
        = (if vortc = vortc ∧ inBox lo hi p then vortVal d2 vel delta p else d2 vortc p)
      rw [if_pos (And.intro rfl hp), if_pos (And.intro rfl hp)]
      exact vortVal_congr d1 d2 vel delta p hagree
    · show (if divuc = divuc ∧ inBox lo hi p then divuVal d1 vel delta p else d1 divuc p)
        = (if divuc = divuc ∧ inBox lo hi p then divuVal d2 vel delta p else d2 divuc p)
      rw [if_pos (And.intro rfl hp), if_pos (And.intro rfl hp)]
      exact divuVal_congr d1 d2 vel delta p hagree
  · intro c p
    unfold copyApply
    by_cases hcp : c = dc ∧ inBox dstlo dsthi p
    · rw [if_pos hcp, if_pos hcp]
      exact hsagree (mapIdx srclo dstlo p)
        (mapIdx_mem srclo srchi dstlo dsthi p hvc.2.2.2.2.1 hcp.2)
    · rw [if_neg hcp, if_neg hcp]

/-- Witness for C9: two arrays that differ only in a component outside
the velocity block (respectively outside the copied source component)
produce identical written contents. -/
theorem C9_pure_input_dependence_witness :
    stencilValid ⟨0, 0, 0⟩ ⟨1, 1, 1⟩ 4 ⟨-1, -1, -1⟩ ⟨2, 2, 2⟩ 0 3 ⟨1, 1, 1⟩ ∧
    copyValid ⟨0, 0, 0⟩ ⟨1, 1, 1⟩ 1 ⟨-1, -1, -1⟩ ⟨2, 2, 2⟩
      ⟨5, 5, 5⟩ ⟨6, 6, 6⟩ 3 ⟨5, 5, 5⟩ ⟨7, 7, 7⟩ 0 2 ∧
    (∃ fv1 fv2 fd1 fd2 g1 g2,
      vort_3d ⟨0, 0, 0⟩ ⟨1, 1, 1⟩ (fun c p => if c = 3 then 7 else (c * p.x : ℚ)) 4
        ⟨-1, -1, -1⟩ ⟨2, 2, 2⟩ 0 3 ⟨1, 1, 1⟩ = some fv1 ∧
      vort_3d ⟨0, 0, 0⟩ ⟨1, 1, 1⟩ (fun c p => (c * p.x : ℚ)) 4
        ⟨-1, -1, -1⟩ ⟨2, 2, 2⟩ 0 3 ⟨1, 1, 1⟩ = some fv2 ∧
      divu_3d ⟨0, 0, 0⟩ ⟨1, 1, 1⟩ (fun c p => if c = 3 then 7 else (c * p.x : ℚ)) 4
        ⟨-1, -1, -1⟩ ⟨2, 2, 2⟩ 0 3 ⟨1, 1, 1⟩ = some fd1 ∧
      divu_3d ⟨0, 0, 0⟩ ⟨1, 1, 1⟩ (fun c p => (c * p.x : ℚ)) 4
        ⟨-1, -1, -1⟩ ⟨2, 2, 2⟩ 0 3 ⟨1, 1, 1⟩ = some fd2 ∧
      copy_3d ⟨0, 0, 0⟩ ⟨1, 1, 1⟩ (fun _ p => if inBox ⟨0, 0, 0⟩ ⟨1, 1, 1⟩ p then (p.x : ℚ) else 3) 1
        ⟨-1, -1, -1⟩ ⟨2, 2, 2⟩ ⟨5, 5, 5⟩ ⟨6, 6, 6⟩ (fun _ _ => 9) 3
        ⟨5, 5, 5⟩ ⟨7, 7, 7⟩ 0 2 = some g1 ∧
      copy_3d ⟨0, 0, 0⟩ ⟨1, 1, 1⟩ (fun _ p => if inBox ⟨0, 0, 0⟩ ⟨1, 1, 1⟩ p then (p.x : ℚ) else 4) 1
        ⟨-1, -1, -1⟩ ⟨2, 2, 2⟩ ⟨5, 5, 5⟩ ⟨6, 6, 6⟩ (fun _ _ => 9) 3
        ⟨5, 5, 5⟩ ⟨7, 7, 7⟩ 0 2 = some g2 ∧
      (∀ p, inBox ⟨0, 0, 0⟩ ⟨1, 1, 1⟩ p →
        fv1 3 p = fv2 3 p ∧ fd1 3 p = fd2 3 p) ∧
      (∀ c p, g1 c p = g2 c p)) :=
  ⟨by decide, by decide,
    C9_pure_input_dependence ⟨0, 0, 0⟩ ⟨1, 1, 1⟩
      (fun c p => if c = 3 then 7 else (c * p.x : ℚ)) (fun c p => (c * p.x : ℚ)) 4
      ⟨-1, -1, -1⟩ ⟨2, 2, 2⟩ 0 3 3 ⟨1, 1, 1⟩ ⟨0, 0, 0⟩ ⟨1, 1, 1⟩
      (fun _ p => if inBox ⟨0, 0, 0⟩ ⟨1, 1, 1⟩ p then (p.x : ℚ) else 3)
      (fun _ p => if inBox ⟨0, 0, 0⟩ ⟨1, 1, 1⟩ p then (p.x : ℚ) else 4) 1
      ⟨-1, -1, -1⟩ ⟨2, 2, 2⟩ ⟨5, 5, 5⟩ ⟨6, 6, 6⟩ (fun _ _ => 9) 3
      ⟨5, 5, 5⟩ ⟨7, 7, 7⟩ 0 2 (by decide) (by decide) (by decide)
      (fun c q h1 h2 => by
        show (if c = 3 then (7 : ℚ) else (c * q.x : ℚ)) = (c * q.x : ℚ)
        rw [if_neg (by omega : ¬ c = 3)])
      (fun q hq => by
        show (if inBox ⟨0, 0, 0⟩ ⟨1, 1, 1⟩ q then (q.x : ℚ) else 3)
          = (if inBox ⟨0, 0, 0⟩ ⟨1, 1, 1⟩ q then (q.x : ℚ) else 4)
        rw [if_pos hq, if_pos hq])⟩

/-- Claim C10 (amended): `vort_3d` and `divu_3d` read their velocity
input and write their derived output within the single shared array `d`;
provided the output component lies outside the velocity block
`[vel, vel+2]`, the three velocity components hold the same values after
the call as before it.  The unamended claim fails when the output
component aliases a velocity component, see the counterexample. -/
theorem C10_velocity_preserved (lo hi : IVec3) (d : FArr) (nComps : Int)
    (dlo dhi : IVec3) (vel vortc divuc : Int) (delta : QVec3)
    (hvv : stencilValid lo hi nComps dlo dhi vel vortc delta)
    (hvd : stencilValid lo hi nComps dlo dhi vel divuc delta)
    (hdv : vortc < vel ∨ vel + 2 < vortc)
    (hdd : divuc < vel ∨ vel + 2 < divuc) :
    ∃ fv fd, vort_3d lo hi d nComps dlo dhi vel vortc delta = some fv ∧
      divu_3d lo hi d nComps dlo dhi vel divuc delta = some fd ∧
      ∀ c p, vel ≤ c → c ≤ vel + 2 → fv c p = d c p ∧ fd c p = d c p := by
  unfold vort_3d divu_3d
  rw [if_pos hvv, if_pos hvd]
  refine ⟨_, _, rfl, rfl, ?_⟩
  intro c p h1 h2
  constructor
  · show (if c = vortc ∧ inBox lo hi p then vortVal d vel delta p else d c p) = d c p
    rw [if_neg (fun h => (by omega : ¬ c = vortc) h.1)]
  · show (if c = divuc ∧ inBox lo hi p then divuVal d vel delta p else d c p) = d c p
    rw [if_neg (fun h => (by omega : ¬ c = divuc) h.1)]

/-- Witness for the amended C10: output component 3 lies outside the
velocity block 0..2, and the three velocity components are untouched. -/
theorem C10_velocity_preserved_witness :
    stencilValid ⟨0, 0, 0⟩ ⟨1, 1, 1⟩ 4 ⟨-1, -1, -1⟩ ⟨2, 2, 2⟩ 0 3 ⟨1, 1, 1⟩ ∧
    ((3 : Int) < 0 ∨ (0 : Int) + 2 < 3) ∧
    (∃ fv fd, vort_3d ⟨0, 0, 0⟩ ⟨1, 1, 1⟩ (fun c p => (c + p.z : ℚ)) 4
        ⟨-1, -1, -1⟩ ⟨2, 2, 2⟩ 0 3 ⟨1, 1, 1⟩ = some fv ∧
      divu_3d ⟨0, 0, 0⟩ ⟨1, 1, 1⟩ (fun c p => (c + p.z : ℚ)) 4
        ⟨-1, -1, -1⟩ ⟨2, 2, 2⟩ 0 3 ⟨1, 1, 1⟩ = some fd ∧
      ∀ c p, 0 ≤ c → c ≤ 0 + 2 → fv c p = (c + p.z : ℚ) ∧ fd c p = (c + p.z : ℚ)) :=
  ⟨by decide, by decide,
    C10_velocity_preserved ⟨0, 0, 0⟩ ⟨1, 1, 1⟩ (fun c p => (c + p.z : ℚ)) 4
      ⟨-1, -1, -1⟩ ⟨2, 2, 2⟩ 0 3 3 ⟨1, 1, 1⟩
      (by decide) (by decide) (by decide) (by decide)⟩

/-- Counterexample to C10 as stated: an invocation that satisfies every
precondition the specification lists (well-formed padded box, components
in range, positive spacing) but whose output component `vort = 0`
aliases the first velocity component `vel = 0`; the kernel overwrites
that velocity component (value 1 written over original value 0). -/
theorem C10_overwrite_counterexample :
    stencilValid ⟨0, 0, 0⟩ ⟨0, 0, 0⟩ 3 ⟨-1, -1, -1⟩ ⟨1, 1, 1⟩ 0 0 ⟨1, 1, 1⟩ ∧
    Option.map (fun f => f 0 ⟨0, 0, 0⟩)
      (vort_3d ⟨0, 0, 0⟩ ⟨0, 0, 0⟩ (fun c p => if c = 2 then (p.y : ℚ) else 0) 3
        ⟨-1, -1, -1⟩ ⟨1, 1, 1⟩ 0 0 ⟨1, 1, 1⟩) = some 1 ∧
    (fun (c : Int) (p : IVec3) => if c = 2 then (p.y : ℚ) else 0) 0 ⟨0, 0, 0⟩ = 0 := by
  refine ⟨by decide, ?_, by norm_num⟩
  unfold vort_3d
  rw [if_pos (by decide)]
  show some (vortApply ⟨0, 0, 0⟩ ⟨0, 0, 0⟩
    (fun c p => if c = 2 then (p.y : ℚ) else 0) 0 0 ⟨1, 1, 1⟩ 0 ⟨0, 0, 0⟩) = some 1
  norm_num [vortApply, inBox, vortVal, curlX, curlY, curlZ,
    ddx, ddy, ddz, xp, xm, yp, ym, zp, zm]
